import Mathlib

/-!
Verification of the numify formatting engine.

The source is a pure TypeScript library: `numify` abbreviates a number with a
magnitude suffix, `formatNumber` inserts locale thousand separators, and
`getFormat` resolves a locale configuration.  JavaScript numbers are modelled
as exact decimals `m / 10 ^ e` (structure `Dec`); arithmetic is exact rational
arithmetic, which is the idealisation the specification itself states
("standard half-up rounding at the 2-decimal boundary").  String values are
manipulated as `List Char` and wrapped into `String` at the API boundary.
-/

namespace Numify

/-- A decimal number with value `m / 10 ^ e`.  Models a JavaScript number in
the plain-decimal regime, i.e. a double whose `toString` is a plain signed
decimal numeral. -/
structure Dec where
  m : Int
  e : Nat
deriving DecidableEq, Repr

/-- The rational value of a modelled number. -/
def Dec.val (d : Dec) : ℚ := (d.m : ℚ) / 10 ^ d.e

/-- The character for a decimal digit. -/
def digitChar (d : Nat) : Char := Char.ofNat (48 + d)

/-- Fuelled digit expansion, structural so that the kernel can evaluate it. -/
def natDigitsAux : Nat → Nat → List Char
  | 0, _ => []
  | fuel + 1, n =>
    if n < 10 then [digitChar n] else natDigitsAux fuel (n / 10) ++ [digitChar (n % 10)]

/-- Decimal digits of a natural number, most significant first. -/
def natDigits (n : Nat) : List Char := natDigitsAux (n + 1) n

/-- Strip trailing zero decimal digits: a double does not remember trailing
fractional zeros, so its `toString` renders the shortest decimal form. -/
def canonAux : Int → Nat → Int × Nat
  | m, 0 => (m, 0)
  | m, e + 1 => if m % 10 = 0 then canonAux (m / 10) e else (m, e + 1)

/-- Left-pad a digit list with zeros to length `e`. -/
def padLeftZeros (e : Nat) (l : List Char) : List Char :=
  List.replicate (e - l.length) '0' ++ l

/-- Render the magnitude of a canonical mantissa/exponent pair. -/
def renderBody (n : Nat) (e : Nat) : List Char :=
  if e = 0 then natDigits n
  else natDigits (n / 10 ^ e) ++ '.' :: padLeftZeros e (natDigits (n % 10 ^ e))

/-- Render a canonical mantissa/exponent pair as a signed decimal numeral. -/
def renderChars (m : Int) (e : Nat) : List Char :=
  (if m < 0 then ['-'] else []) ++ renderBody m.natAbs e

/-- The characters of `Number.prototype.toString` on the modelled decimal. -/
def jsChars (m : Int) (e : Nat) : List Char :=
  renderChars (canonAux m e).1 (canonAux m e).2

/-- Model of `num.toString()` on the modelled decimal. -/
def jsToString (d : Dec) : String := String.mk (jsChars d.m d.e)

/-- Numeric value of a digit string, via repeated `10 * acc + digit`. -/
def digitsToNat (l : List Char) : Nat := l.foldl (fun a c => 10 * a + (c.toNat - 48)) 0

/-- Models `Number(s)` on strings shaped `[-]digits[.digits]`, the only shapes
that reach it in this development. -/
def parseChars (cs : List Char) : Dec :=
  let neg := cs.headD '0' == '-'
  let body := if neg then cs.tail else cs
  let ip := body.takeWhile (fun c => c != '.')
  let fp := (body.dropWhile (fun c => c != '.')).drop 1
  let n := digitsToNat (ip ++ fp)
  ⟨if neg then -(n : Int) else (n : Int), fp.length⟩

/-- Models `Number(s)` at the `String` level. -/
def parseDec (s : String) : Dec := parseChars s.data

/-- Model of the replace with the character class excluding digits and dots:
keep only digits and literal dots. -/
def stripNonDigitDot (s : String) : String :=
  String.mk (s.data.filter (fun c => c.isDigit || c == '.'))

/-- Sanitization of the source: re-parse the stripped string rendering. -/
def sanitize (d : Dec) : Dec := parseDec (stripNonDigitDot (jsToString d))

/-- The `NumberFormat` configuration record of the source. -/
structure NumberFormat where
  decimal : Char
  thousand : Char
  system : String
deriving DecidableEq, Repr

/-- The apostrophe character (Swiss thousand separator). -/
def apos : Char := Char.ofNat 39

/-- The `FORMAT_LOCALES` table of the source. -/
def FORMAT_LOCALES : List (String × NumberFormat) :=
  [("en", ⟨'.', ',', "international"⟩),
   ("de", ⟨',', '.', "international"⟩),
   ("fr", ⟨',', ' ', "international"⟩),
   ("es", ⟨',', '.', "international"⟩),
   ("in", ⟨'.', ',', "indian"⟩),
   ("it", ⟨',', '.', "international"⟩),
   ("ch", ⟨'.', apos, "international"⟩),
   ("se", ⟨',', ' ', "international"⟩)]

/-- The `LONG_UNITS` table of the source. -/
def LONG_UNITS : List (String × String) :=
  [("k", "thousand"), ("M", "million"), ("B", "billion"), ("T", "trillion"),
   ("E", "quintillion"), ("P", "quadrillion"), ("Cr", "crore"), ("L", "lakh")]

/-- Resolution function `getFormat` of the source: the empty-string argument
stands for the absent/falsy case, and the table access with an or-else is
lookup with an English default. -/
def getFormat (format : String) : NumberFormat :=
  if format = "" then (FORMAT_LOCALES.lookup "en").getD ⟨'.', ',', "international"⟩
  else if format = "international" ∨ format = "indian" then ⟨'.', ',', format⟩
  else (FORMAT_LOCALES.lookup format).getD
    ((FORMAT_LOCALES.lookup "en").getD ⟨'.', ',', "international"⟩)

/-- The international magnitude ladder of `numify`. -/
def internationalUnits : List (ℚ × String) :=
  [((10 : ℚ) ^ 18, "E"), ((10 : ℚ) ^ 15, "P"), ((10 : ℚ) ^ 12, "T"),
   ((10 : ℚ) ^ 9, "B"), ((10 : ℚ) ^ 6, "M"), ((10 : ℚ) ^ 3, "k")]

/-- The indian magnitude ladder of `numify`. -/
def indianUnits : List (ℚ × String) :=
  [((10 : ℚ) ^ 7, "Cr"), ((10 : ℚ) ^ 5, "L"), ((10 : ℚ) ^ 3, "K")]

/-- Ladder selection of the source: the ternary on the configuration field
`system` choosing the indian or the international ladder. -/
def unitsFor (system : String) : List (ℚ × String) :=
  if system == "indian" then indianUnits else internationalUnits

/-- The unit scan of the source: find the first ladder entry whose threshold
is at most the value. -/
def pickUnit (system : String) (q : ℚ) : Option (ℚ × String) :=
  (unitsFor system).find? (fun u => decide (u.1 ≤ q))

/-- The scaled integer of `x.toFixed(2)`: the ECMAScript rule picks the integer
`n` with `n / 100` closest to `x`, the larger one on ties, i.e. half-up. -/
def round2 (q : ℚ) : Nat := (⌊q * 100 + 1 / 2⌋).toNat

/-- Rendering of toFixed with two digits: the half-up rounding of `x` with
exactly two decimal digits. -/
def toFixed2 (q : ℚ) : List Char :=
  natDigits (round2 q / 100) ++ ['.', digitChar (round2 q / 10 % 10), digitChar (round2 q % 10)]

/-- The regex `\.0+$|(\.[0-9]*[1-9])0+$` replaced by `"$1"`: strip a trailing
run of zeros preceded either directly by the dot, or by a nonzero decimal
digit that has only digits between it and the dot. -/
def trimTrailingZeros (cs : List Char) : List Char :=
  let r := cs.reverse
  let z := (r.takeWhile (fun c => c == '0')).length
  if z = 0 then cs
  else
    match r.drop z with
    | [] => cs
    | '.' :: xs => xs.reverse
    | x :: xs =>
      if x.isDigit ∧ x ≠ '0' ∧ (xs.dropWhile Char.isDigit).headD ' ' = '.' then
        (x :: xs).reverse
      else cs

/-- Model of the single (non-global) replace of the source: replace the
first literal dot. -/
def replaceFirstDot (c : Char) : List Char → List Char
  | [] => []
  | x :: xs => if x = '.' then c :: xs else x :: replaceFirstDot c xs

/-- The scaled-value rendering of `numify`: `(num / unit[0]).toFixed(2)`,
trailing zeros trimmed, the dot replaced by the locale decimal separator. -/
def renderScaled (decimal : Char) (q : ℚ) : String :=
  String.mk (replaceFirstDot decimal (trimTrailingZeros (toFixed2 q)))

/-- The suffix ternary of the source; a missing `LONG_UNITS` key stringifies
to the word undefined inside a JavaScript template literal. -/
def numifySuffix (style : String) (short : String) : String :=
  if style == "long" then " " ++ ((LONG_UNITS.lookup short).getD "undefined") else short

/-- Options of `numify`; `none` models an absent field. -/
structure NumifyOptions where
  formatType : Option String := none
  precise : Option Bool := none
  style : Option String := none
deriving DecidableEq, Repr

/-- The body of `numify` after the sanitising reassignment of `num`. -/
def numifyCore (n : Dec) (options : NumifyOptions) : String :=
  let formatType := options.formatType.getD "en"
  let precise := options.precise.getD false
  let style := options.style.getD "short"
  let format := getFormat formatType
  if n.val < 1000 then
    if precise then String.mk (replaceFirstDot format.decimal (toFixed2 n.val))
    else jsToString n
  else
    match pickUnit format.system n.val with
    | none => jsToString n
    | some unit => renderScaled format.decimal (n.val / unit.1) ++ numifySuffix style unit.2

/-- Function `numify` of the source: sanitize, then format. -/
def numify (num : Dec) (options : NumifyOptions) : String :=
  numifyCore (sanitize num) options

/-- The grouping regex `\B(?=(\d{3})+(?!\d))` scanned over a digit string: a
separator is inserted before every position that is followed by a positive
multiple of three digits running to the end of the integer part. -/
def groupThousands (sep : Char) : List Char → List Char
  | [] => []
  | c :: cs =>
    if cs.length % 3 = 0 ∧ cs ≠ [] then c :: sep :: groupThousands sep cs
    else c :: groupThousands sep cs

/-- Written from the spec: insert the separator at every third-digit boundary
counting from the right, never before the first digit. -/
def specGroup (sep : Char) (ds : List Char) : List Char :=
  ((List.range ds.length).map fun i =>
    (if i ≠ 0 ∧ (ds.length - i) % 3 = 0 then [sep] else []) ++ [ds.getD i '0']).flatten

/-- Options of `formatNumber`; `none` models an absent field. -/
structure FormatNumberOptions where
  formatType : Option String := none
deriving DecidableEq, Repr

/-- Function `formatNumber` of the source: split the rendering at the dot (a number
renders with at most one dot), group the integer part — the regex never fires
at a leading sign, which sits on a word boundary — and join with the locale
decimal separator when a fractional part exists. -/
def formatNumber (num : Dec) (options : FormatNumberOptions) : String :=
  let format := getFormat (options.formatType.getD "en")
  let s := jsChars num.m num.e
  let intPart := s.takeWhile (fun c => c != '.')
  let fracPart := (s.dropWhile (fun c => c != '.')).drop 1
  let neg := intPart.headD '0' == '-'
  let digs := if neg then intPart.tail else intPart
  let grouped := (if neg then ['-'] else []) ++ groupThousands format.thousand digs
  if s.contains '.' then String.mk (grouped ++ format.decimal :: fracPart)
  else String.mk grouped

/-- Remove every occurrence of a character. -/
def stripChar (c : Char) (s : String) : String :=
  String.mk (s.data.filter (fun x => x != c))

/-- Replace every occurrence of a character by another. -/
def replaceChar (a b : Char) (s : String) : String :=
  String.mk (s.data.map (fun x => if x = a then b else x))

/-- The ascending ladder `si` of the legacy `numify` (src/src/index.ts). -/
def si : List (ℚ × String) :=
  [((10 : ℚ) ^ 3, "k"), ((10 : ℚ) ^ 6, "M"), ((10 : ℚ) ^ 9, "B"),
   ((10 : ℚ) ^ 12, "T"), ((10 : ℚ) ^ 15, "P"), ((10 : ℚ) ^ 18, "E")]

/-- The legacy scan
`for (index = si.length - 1; index > 0; index--) if (num >= si[index].v) break;`:
the loop stops at the largest index in `[1, 5]` whose threshold is reached and
falls through to index `0` otherwise. -/
def legacyLoop (q : ℚ) : Nat → Nat
  | 0 => 0
  | i + 1 => if (si.getD (i + 1) (0, "")).1 ≤ q then i + 1 else legacyLoop q i

/-- The legacy `numify` of src/src/index.ts.  It returns the sanitized number
itself (`Sum.inl`) below 1000 and a formatted string (`Sum.inr`) otherwise. -/
def legacyNumify (num : Dec) : Dec ⊕ String :=
  let n := sanitize num
  if n.val < 1000 then Sum.inl n
  else
    let u := si.getD (legacyLoop n.val 5) (0, "")
    Sum.inr (String.mk (trimTrailingZeros (toFixed2 (n.val / u.1))) ++ u.2)

/-- The five distinct configurations `getFormat` can produce. -/
def allConfigs : List NumberFormat :=
  [⟨'.', ',', "international"⟩, ⟨',', '.', "international"⟩, ⟨',', ' ', "international"⟩,
   ⟨'.', ',', "indian"⟩, ⟨'.', apos, "international"⟩]

/-- Written from the spec: round half-up at the second decimal; if both decimal
digits are zero, drop the decimal part entirely; if only the second is zero,
drop just that digit; otherwise keep both. -/
def specTrim2 (q : ℚ) : List Char :=
  if round2 q % 100 = 0 then natDigits (round2 q / 100)
  else if round2 q % 10 = 0 then
    natDigits (round2 q / 100) ++ ['.', digitChar (round2 q / 10 % 10)]
  else
    natDigits (round2 q / 100) ++ ['.', digitChar (round2 q / 10 % 10), digitChar (round2 q % 10)]

example : numify ⟨1200, 0⟩ {} = "1.2k" := by with_unfolding_all decide
example : numify ⟨2000, 0⟩ {} = "2k" := by with_unfolding_all decide
example : numify ⟨1234, 0⟩ {} = "1.23k" := by with_unfolding_all decide
example : numify ⟨1234, 0⟩ ⟨none, none, some "long"⟩ = "1.23 thousand" := by with_unfolding_all decide
example : numify ⟨1234, 0⟩ ⟨some "in", none, some "long"⟩ = "1.23 undefined" := by with_unfolding_all decide
example : numify ⟨500, 0⟩ ⟨none, some true, none⟩ = "500.00" := by with_unfolding_all decide
example : numify ⟨500, 0⟩ ⟨some "de", some true, none⟩ = "500,00" := by with_unfolding_all decide
example : numify ⟨-5, 0⟩ {} = "5" := by with_unfolding_all decide
example : numify ⟨100000, 0⟩ ⟨some "in", none, none⟩ = "1L" := by with_unfolding_all decide
example : numify ⟨23878437, 0⟩ ⟨some "in", none, none⟩ = "2.39Cr" := by with_unfolding_all decide
example : formatNumber ⟨123456789, 2⟩ ⟨some "de"⟩ = "1.234.567,89" := by with_unfolding_all decide
example : formatNumber ⟨123456789, 2⟩ {} = "1,234,567.89" := by with_unfolding_all decide
example : formatNumber ⟨-1234567, 0⟩ {} = "-1,234,567" := by with_unfolding_all decide
example : legacyNumify ⟨300000000, 0⟩ = Sum.inr "300M" := by with_unfolding_all decide
example : jsToString ⟨-5, 0⟩ = "-5" := by with_unfolding_all decide

/-! ### Digit rendering and parsing infrastructure -/

lemma digitChar_isDigit {d : Nat} (h : d < 10) : (digitChar d).isDigit = true := by
  interval_cases d <;> decide

lemma digitChar_toNat {d : Nat} (h : d < 10) : (digitChar d).toNat = 48 + d := by
  interval_cases d <;> decide

lemma digitChar_eq_zero_iff {d : Nat} (h : d < 10) : digitChar d = '0' ↔ d = 0 := by
  interval_cases d <;> simp <;> decide

lemma isDigit_ne {c x : Char} (hc : c.isDigit = true) (hx : x.isDigit = false) : c ≠ x := by
  intro h; rw [h, hx] at hc; cases hc

lemma natDigitsAux_congr : ∀ f g n, n < f → n < g → natDigitsAux f n = natDigitsAux g n := by
  intro f
  induction f with
  | zero => intro g n h; omega
  | succ f ih =>
    intro g n hf hg
    cases g with
    | zero => omega
    | succ g =>
      simp only [natDigitsAux]
      split
      · rfl
      · rename_i h10
        have hn : 10 ≤ n := by omega
        have hdiv : n / 10 < n := Nat.div_lt_self (by omega) (by omega)
        rw [ih g (n / 10) (by omega) (by omega)]

lemma natDigits_eq (n : Nat) :
    natDigits n = if n < 10 then [digitChar n]
      else natDigits (n / 10) ++ [digitChar (n % 10)] := by
  show natDigitsAux (n + 1) n = _
  simp only [natDigitsAux]
  split
  · rfl
  · rename_i h10
    have hdiv : n / 10 < n := Nat.div_lt_self (by omega) (by omega)
    rw [natDigitsAux_congr n (n / 10 + 1) (n / 10) (by omega) (by omega)]
    rfl

lemma natDigits_ne_nil (n : Nat) : natDigits n ≠ [] := by
  rw [natDigits_eq]
  split
  · simp
  · simp

lemma mem_natDigits_isDigit {c : Char} : ∀ {n : Nat}, c ∈ natDigits n → c.isDigit = true := by
  intro n
  induction n using Nat.strong_induction_on with
  | _ n ih =>
    intro hc
    rw [natDigits_eq] at hc
    split at hc
    · rename_i h10
      simp only [List.mem_singleton] at hc
      exact hc ▸ digitChar_isDigit h10
    · rename_i h10
      rcases List.mem_append.1 hc with h | h
      · exact ih (n / 10) (Nat.div_lt_self (by omega) (by omega)) h
      · simp only [List.mem_singleton] at h
        exact h ▸ digitChar_isDigit (Nat.mod_lt _ (by omega))

lemma foldl_digits_shift (l : List Char) (x : Nat) :
    l.foldl (fun a c => 10 * a + (c.toNat - 48)) x = x * 10 ^ l.length + digitsToNat l := by
  induction l generalizing x with
  | nil => simp [digitsToNat]
  | cons c cs ih =>
    simp only [List.foldl_cons, digitsToNat, List.length_cons]
    rw [ih (10 * x + (c.toNat - 48)), ih (10 * 0 + (c.toNat - 48))]
    ring

lemma digitsToNat_append (a b : List Char) :
    digitsToNat (a ++ b) = digitsToNat a * 10 ^ b.length + digitsToNat b := by
  unfold digitsToNat
  rw [List.foldl_append, foldl_digits_shift]
  rfl

lemma digitsToNat_natDigits : ∀ n : Nat, digitsToNat (natDigits n) = n := by
  intro n
  induction n using Nat.strong_induction_on with
  | _ n ih =>
    rw [natDigits_eq]
    split
    · rename_i h10
      simp [digitsToNat, digitChar_toNat h10]
    · rename_i h10
      rw [digitsToNat_append, ih (n / 10) (Nat.div_lt_self (by omega) (by omega))]
      have h1 : digitsToNat [digitChar (n % 10)] = n % 10 := by
        simp [digitsToNat, digitChar_toNat (Nat.mod_lt n (by omega))]
      rw [h1]
      simp only [List.length_singleton, pow_one]
      omega

lemma digitsToNat_replicate_zero (k : Nat) : digitsToNat (List.replicate k '0') = 0 := by
  induction k with
  | zero => rfl
  | succ k ih =>
    have h0 : (10 * 0 + ('0'.toNat - 48)) = 0 := by decide
    simp only [digitsToNat, List.replicate_succ, List.foldl_cons, h0] at ih ⊢
    exact ih

lemma digitsToNat_padLeftZeros (e : Nat) (l : List Char) :
    digitsToNat (padLeftZeros e l) = digitsToNat l := by
  unfold padLeftZeros
  rw [digitsToNat_append, digitsToNat_replicate_zero]
  simp

lemma natDigits_length_le : ∀ (n k : Nat), 1 ≤ k → n < 10 ^ k → (natDigits n).length ≤ k := by
  intro n
  induction n using Nat.strong_induction_on with
  | _ n ih =>
    intro k hk hn
    rw [natDigits_eq]
    split
    · simpa using hk
    · rename_i h10
      have hk2 : 2 ≤ k := by
        by_contra h
        have : k = 1 := by omega
        subst this
        simp at hn
        omega
      have hdiv : n / 10 < 10 ^ (k - 1) := by
        have h1 : 10 ^ k = 10 ^ (k - 1) * 10 := by
          conv_lhs => rw [show k = (k - 1) + 1 by omega]
          ring
        rw [h1] at hn
        omega
      have := ih (n / 10) (Nat.div_lt_self (by omega) (by omega)) (k - 1) (by omega) hdiv
      simp only [List.length_append, List.length_singleton]
      omega

lemma padLeftZeros_length {e : Nat} {l : List Char} (h : l.length ≤ e) :
    (padLeftZeros e l).length = e := by
  simp [padLeftZeros]
  omega

/-! ### canonAux lemmas -/

lemma canonAux_neg (m : Int) : ∀ e, canonAux (-m) e = (-(canonAux m e).1, (canonAux m e).2) := by
  intro e
  induction e generalizing m with
  | zero => rfl
  | succ e ih =>
    simp only [canonAux]
    have hiff : (-m) % 10 = 0 ↔ m % 10 = 0 := by omega
    by_cases h : m % 10 = 0
    · rw [if_pos (hiff.2 h), if_pos h]
      have : (-m) / 10 = -(m / 10) := by omega
      rw [this, ih]
    · rw [if_neg (fun hh => h (hiff.1 hh)), if_neg h]

lemma canonAux_snd_pos : ∀ (e : Nat) (m : Int), (canonAux m e).2 ≠ 0 → (canonAux m e).1 % 10 ≠ 0 := by
  intro e
  induction e with
  | zero => intro m h; simp [canonAux] at h
  | succ e ih =>
    intro m h
    simp only [canonAux] at h ⊢
    by_cases h10 : m % 10 = 0
    · rw [if_pos h10] at h ⊢
      exact ih _ h
    · rw [if_neg h10] at h ⊢
      exact h10

lemma canonAux_fix (m : Int) (e : Nat) :
    canonAux (canonAux m e).1 (canonAux m e).2 = canonAux m e := by
  rcases hp : canonAux m e with ⟨m1, e1⟩
  rcases e1 with _ | k
  · rfl
  · have hm : m1 % 10 ≠ 0 := by
      have := canonAux_snd_pos e m (by rw [hp]; simp)
      rwa [hp] at this
    simp only [canonAux, if_neg hm]

lemma canonAux_nonneg : ∀ (e : Nat) (m : Int), 0 ≤ m → 0 ≤ (canonAux m e).1 := by
  intro e
  induction e with
  | zero => intro m h; exact h
  | succ e ih =>
    intro m h
    simp only [canonAux]
    split
    · exact ih _ (by positivity)
    · exact h

/-! ### Rendering and re-parsing -/

lemma mem_padLeftZeros_isDigit {e : Nat} {l : List Char} (hl : ∀ c ∈ l, c.isDigit = true) :
    ∀ c ∈ padLeftZeros e l, c.isDigit = true := by
  intro c hc
  rcases List.mem_append.1 hc with h | h
  · rw [List.eq_of_mem_replicate h]; decide
  · exact hl c h

lemma mem_renderBody_keep {n e : Nat} :
    ∀ c ∈ renderBody n e, (c.isDigit || c == '.') = true := by
  intro c hc
  unfold renderBody at hc
  split at hc
  · simp [mem_natDigits_isDigit hc]
  · rcases List.mem_append.1 hc with h | h
    · simp [mem_natDigits_isDigit h]
    · rcases List.mem_cons.1 h with h | h
      · simp [h]
      · simp [mem_padLeftZeros_isDigit (fun _ hx => mem_natDigits_isDigit hx) c h]

lemma takeWhile_all {p : Char → Bool} {l : List Char} (h : ∀ c ∈ l, p c = true) :
    l.takeWhile p = l := by
  induction l with
  | nil => rfl
  | cons c cs ih =>
    simp only [List.takeWhile_cons, h c (List.mem_cons_self c cs), if_true]
    rw [ih (fun x hx => h x (List.mem_cons_of_mem c hx))]

lemma dropWhile_all {p : Char → Bool} {l : List Char} (h : ∀ c ∈ l, p c = true) :
    l.dropWhile p = [] := by
  induction l with
  | nil => rfl
  | cons c cs ih =>
    simp only [List.dropWhile_cons, h c (List.mem_cons_self c cs), if_true]
    exact ih (fun x hx => h x (List.mem_cons_of_mem c hx))

lemma takeWhile_ne_dot_append {A B : List Char} (h : ∀ c ∈ A, (c != '.') = true) :
    (A ++ '.' :: B).takeWhile (fun c => c != '.') = A := by
  induction A with
  | nil => simp [List.takeWhile_cons]
  | cons a as ih =>
    simp only [List.cons_append, List.takeWhile_cons, h a (List.mem_cons_self a as), if_true]
    rw [ih (fun x hx => h x (List.mem_cons_of_mem a hx))]

lemma dropWhile_ne_dot_append {A B : List Char} (h : ∀ c ∈ A, (c != '.') = true) :
    (A ++ '.' :: B).dropWhile (fun c => c != '.') = '.' :: B := by
  induction A with
  | nil => simp [List.dropWhile_cons]
  | cons a as ih =>
    simp only [List.cons_append, List.dropWhile_cons, h a (List.mem_cons_self a as), if_true]
    exact ih (fun x hx => h x (List.mem_cons_of_mem a hx))

lemma isDigit_bne_dot {c : Char} (h : c.isDigit = true) : (c != '.') = true := by
  simp only [bne_iff_ne, ne_eq]
  exact isDigit_ne h (by decide)

lemma natDigits_headD_ne_dash (n : Nat) : ((natDigits n).headD '0' == '-') = false := by
  cases hl : natDigits n with
  | nil => exact absurd hl (natDigits_ne_nil n)
  | cons c cs =>
    simp only [List.headD_cons, beq_eq_false_iff_ne, ne_eq]
    exact isDigit_ne (mem_natDigits_isDigit (by rw [hl]; exact List.mem_cons_self c cs)) (by decide)

lemma parseChars_renderBody (n e : Nat) : parseChars (renderBody n e) = ⟨(n : Int), e⟩ := by
  unfold parseChars renderBody
  split
  · rename_i he
    subst he
    rw [natDigits_headD_ne_dash]
    simp only [Bool.false_eq_true, if_false]
    rw [takeWhile_all (fun c hc => isDigit_bne_dot (mem_natDigits_isDigit hc)),
        dropWhile_all (fun c hc => isDigit_bne_dot (mem_natDigits_isDigit hc))]
    simp [digitsToNat_natDigits]
  · rename_i he
    have hh : ((natDigits (n / 10 ^ e) ++
        '.' :: padLeftZeros e (natDigits (n % 10 ^ e))).headD '0' == '-') = false := by
      cases hl : natDigits (n / 10 ^ e) with
      | nil => exact absurd hl (natDigits_ne_nil _)
      | cons c cs =>
        simp only [List.cons_append, List.headD_cons, beq_eq_false_iff_ne, ne_eq]
        exact isDigit_ne (mem_natDigits_isDigit (by rw [hl]; exact List.mem_cons_self c cs))
          (by decide)
    rw [hh]
    simp only [Bool.false_eq_true, if_false]
    rw [takeWhile_ne_dot_append (fun c hc => isDigit_bne_dot (mem_natDigits_isDigit hc)),
        dropWhile_ne_dot_append (fun c hc => isDigit_bne_dot (mem_natDigits_isDigit hc))]
    simp only [List.drop_one, List.tail_cons]
    have hlen : (padLeftZeros e (natDigits (n % 10 ^ e))).length = e :=
      padLeftZeros_length (natDigits_length_le _ e (by omega) (Nat.mod_lt _ (by positivity)))
    rw [digitsToNat_append, digitsToNat_padLeftZeros, digitsToNat_natDigits,
        digitsToNat_natDigits, hlen]
    congr 1
    exact_mod_cast Nat.div_add_mod' n (10 ^ e)

lemma filter_keep_renderBody (n e : Nat) :
    (renderBody n e).filter (fun c => c.isDigit || c == '.') = renderBody n e :=
  List.filter_eq_self.mpr mem_renderBody_keep

lemma stripChars_jsChars (m : Int) (e : Nat) :
    (jsChars m e).filter (fun c => c.isDigit || c == '.')
      = renderBody (canonAux m e).1.natAbs (canonAux m e).2 := by
  unfold jsChars renderChars
  rw [List.filter_append]
  have h1 : (if (canonAux m e).1 < 0 then ['-'] else []).filter
      (fun c => c.isDigit || c == '.') = [] := by split <;> rfl
  rw [h1, filter_keep_renderBody, List.nil_append]

/-- The central sanitization computation: stripping and re-parsing `toString`
yields the absolute value of the canonical form. -/
lemma sanitize_eq (m : Int) (e : Nat) :
    sanitize ⟨m, e⟩ = ⟨((canonAux m e).1.natAbs : Int), (canonAux m e).2⟩ := by
  show parseChars ((jsChars m e).filter _) = _
  rw [stripChars_jsChars, parseChars_renderBody]

/-- C4: `numify` first strips every character that is not a digit or a dot
from the decimal-string representation of the number and re-parses the remainder
(second conjunct, definitional); consequently a negative input produces the
same output as its absolute value — the minus sign is silently discarded
(first conjunct). -/
theorem numify_neg_eq_abs (m : Int) (e : Nat) (opts : NumifyOptions) :
    numify ⟨m, e⟩ opts = numify ⟨(m.natAbs : Int), e⟩ opts ∧
    sanitize ⟨m, e⟩ = parseDec (stripNonDigitDot (jsToString ⟨m, e⟩)) := by
  refine ⟨?_, rfl⟩
  unfold numify
  congr 1
  rw [sanitize_eq, sanitize_eq]
  rcases le_or_lt 0 m with h | h
  · rw [Int.natAbs_of_nonneg h]
  · have habs : ((m.natAbs : Int)) = -m := by omega
    rw [habs, canonAux_neg]
    simp [Int.natAbs_neg]

/-- C6: `getFormat` is total and never fails: empty (absent) input yields the
English configuration; the literal system names yield a synthetic
configuration with the default separators; each of the eight locale codes
yields its fixed triple; every other string falls back to English. -/
theorem getFormat_total :
    getFormat "" = ⟨'.', ',', "international"⟩ ∧
    getFormat "international" = ⟨'.', ',', "international"⟩ ∧
    getFormat "indian" = ⟨'.', ',', "indian"⟩ ∧
    getFormat "en" = ⟨'.', ',', "international"⟩ ∧
    getFormat "de" = ⟨',', '.', "international"⟩ ∧
    getFormat "fr" = ⟨',', ' ', "international"⟩ ∧
    getFormat "es" = ⟨',', '.', "international"⟩ ∧
    getFormat "in" = ⟨'.', ',', "indian"⟩ ∧
    getFormat "it" = ⟨',', '.', "international"⟩ ∧
    getFormat "ch" = ⟨'.', apos, "international"⟩ ∧
    getFormat "se" = ⟨',', ' ', "international"⟩ ∧
    ∀ s : String,
      s ∉ (["", "international", "indian",
            "en", "de", "fr", "es", "in", "it", "ch", "se"] : List String) →
      getFormat s = ⟨'.', ',', "international"⟩ := by
  refine ⟨by decide, by decide, by decide, by decide, by decide, by decide, by decide,
    by decide, by decide, by decide, by decide, ?_⟩
  intro s hs
  simp only [List.mem_cons, List.not_mem_nil, or_false, not_or] at hs
  obtain ⟨h1, h2, h3, h4, h5, h6, h7, h8, h9, h10, h11⟩ := hs
  unfold getFormat FORMAT_LOCALES
  rw [if_neg h1, if_neg (by tauto)]
  have e4 : (s == "en") = false := beq_eq_false_iff_ne.mpr h4
  have e5 : (s == "de") = false := beq_eq_false_iff_ne.mpr h5
  have e6 : (s == "fr") = false := beq_eq_false_iff_ne.mpr h6
  have e7 : (s == "es") = false := beq_eq_false_iff_ne.mpr h7
  have e8 : (s == "in") = false := beq_eq_false_iff_ne.mpr h8
  have e9 : (s == "it") = false := beq_eq_false_iff_ne.mpr h9
  have e10 : (s == "ch") = false := beq_eq_false_iff_ne.mpr h10
  have e11 : (s == "se") = false := beq_eq_false_iff_ne.mpr h11
  simp [List.lookup, e4, e5, e6, e7, e8, e9, e10, e11]

/-- Witness for C6 at the unrecognized code "xx". -/
theorem getFormat_total_witness : getFormat "xx" = ⟨'.', ',', "international"⟩ :=
  getFormat_total.2.2.2.2.2.2.2.2.2.2.2 "xx" (by decide)

/-- C1: for every value at least 1000, the unit scan over the ladder selected
by the number system of the configuration succeeds and returns the unit with the
largest threshold not exceeding the value; any two configurations with the
same number system scan the same ladder, so separators never influence the
choice. -/
theorem pickUnit_largest (sys : String) (q : ℚ) (h : 1000 ≤ q) :
    ∃ u, pickUnit sys q = some u ∧ u ∈ unitsFor sys ∧ u.1 ≤ q ∧
      (∀ v ∈ unitsFor sys, v.1 ≤ q → v.1 ≤ u.1) ∧
      ∀ f : NumberFormat, f.system = sys → pickUnit f.system q = pickUnit sys q := by
  have h3 : ((10 : ℚ) ^ 3) ≤ q := by norm_num; linarith
  by_cases hsys : (sys == "indian") = true
  · have hU : unitsFor sys = indianUnits := by simp [unitsFor, hsys]
    by_cases h7 : ((10 : ℚ) ^ 7) ≤ q
    · refine ⟨((10 : ℚ) ^ 7, "Cr"), ?_, by rw [hU]; simp [indianUnits], h7, ?_,
        fun f hf => by rw [hf]⟩
      · simp only [pickUnit, hU, indianUnits]
        rw [List.find?_cons_of_pos _ (by simpa using h7)]
      · intro v hv
        rw [hU] at hv
        fin_cases hv <;> norm_num
    · by_cases h5 : ((10 : ℚ) ^ 5) ≤ q
      · refine ⟨((10 : ℚ) ^ 5, "L"), ?_, by rw [hU]; simp [indianUnits], h5, ?_,
          fun f hf => by rw [hf]⟩
        · simp only [pickUnit, hU, indianUnits]
          rw [List.find?_cons_of_neg _ (by simpa using h7),
              List.find?_cons_of_pos _ (by simpa using h5)]
        · intro v hv
          rw [hU] at hv
          fin_cases hv
          · exact fun hq => absurd hq h7
          · exact fun _ => le_refl _
          · norm_num
      · refine ⟨((10 : ℚ) ^ 3, "K"), ?_, by rw [hU]; simp [indianUnits], h3, ?_,
          fun f hf => by rw [hf]⟩
        · simp only [pickUnit, hU, indianUnits]
          rw [List.find?_cons_of_neg _ (by simpa using h7),
              List.find?_cons_of_neg _ (by simpa using h5),
              List.find?_cons_of_pos _ (by simpa using h3)]
        · intro v hv
          rw [hU] at hv
          fin_cases hv
          · exact fun hq => absurd hq h7
          · exact fun hq => absurd hq h5
          · exact fun _ => le_refl _
  · have hU : unitsFor sys = internationalUnits := by simp [unitsFor, hsys]
    by_cases h18 : ((10 : ℚ) ^ 18) ≤ q
    · refine ⟨((10 : ℚ) ^ 18, "E"), ?_, by rw [hU]; simp [internationalUnits], h18, ?_,
        fun f hf => by rw [hf]⟩
      · simp only [pickUnit, hU, internationalUnits]
        rw [List.find?_cons_of_pos _ (by simpa using h18)]
      · intro v hv
        rw [hU] at hv
        fin_cases hv <;> norm_num
    · by_cases h15 : ((10 : ℚ) ^ 15) ≤ q
      · refine ⟨((10 : ℚ) ^ 15, "P"), ?_, by rw [hU]; simp [internationalUnits], h15, ?_,
          fun f hf => by rw [hf]⟩
        · simp only [pickUnit, hU, internationalUnits]
          rw [List.find?_cons_of_neg _ (by simpa using h18),
              List.find?_cons_of_pos _ (by simpa using h15)]
        · intro v hv
          rw [hU] at hv
          fin_cases hv
          · exact fun hq => absurd hq h18
          · exact fun _ => le_refl _
          all_goals norm_num
      · by_cases h12 : ((10 : ℚ) ^ 12) ≤ q
        · refine ⟨((10 : ℚ) ^ 12, "T"), ?_, by rw [hU]; simp [internationalUnits], h12, ?_,
            fun f hf => by rw [hf]⟩
          · simp only [pickUnit, hU, internationalUnits]
            rw [List.find?_cons_of_neg _ (by simpa using h18),
                List.find?_cons_of_neg _ (by simpa using h15),
                List.find?_cons_of_pos _ (by simpa using h12)]
          · intro v hv
            rw [hU] at hv
            fin_cases hv
            · exact fun hq => absurd hq h18
            · exact fun hq => absurd hq h15
            · exact fun _ => le_refl _
            all_goals norm_num
        · by_cases h9 : ((10 : ℚ) ^ 9) ≤ q
          · refine ⟨((10 : ℚ) ^ 9, "B"), ?_, by rw [hU]; simp [internationalUnits], h9, ?_,
              fun f hf => by rw [hf]⟩
            · simp only [pickUnit, hU, internationalUnits]
              rw [List.find?_cons_of_neg _ (by simpa using h18),
                  List.find?_cons_of_neg _ (by simpa using h15),
                  List.find?_cons_of_neg _ (by simpa using h12),
                  List.find?_cons_of_pos _ (by simpa using h9)]
            · intro v hv
              rw [hU] at hv
              fin_cases hv
              · exact fun hq => absurd hq h18
              · exact fun hq => absurd hq h15
              · exact fun hq => absurd hq h12
              · exact fun _ => le_refl _
              all_goals norm_num
          · by_cases h6 : ((10 : ℚ) ^ 6) ≤ q
            · refine ⟨((10 : ℚ) ^ 6, "M"), ?_, by rw [hU]; simp [internationalUnits], h6, ?_,
                fun f hf => by rw [hf]⟩
              · simp only [pickUnit, hU, internationalUnits]
                rw [List.find?_cons_of_neg _ (by simpa using h18),
                    List.find?_cons_of_neg _ (by simpa using h15),
                    List.find?_cons_of_neg _ (by simpa using h12),
                    List.find?_cons_of_neg _ (by simpa using h9),
                    List.find?_cons_of_pos _ (by simpa using h6)]
              · intro v hv
                rw [hU] at hv
                fin_cases hv
                · exact fun hq => absurd hq h18
                · exact fun hq => absurd hq h15
                · exact fun hq => absurd hq h12
                · exact fun hq => absurd hq h9
                · exact fun _ => le_refl _
                · norm_num
            · refine ⟨((10 : ℚ) ^ 3, "k"), ?_, by rw [hU]; simp [internationalUnits], h3, ?_,
                fun f hf => by rw [hf]⟩
              · simp only [pickUnit, hU, internationalUnits]
                rw [List.find?_cons_of_neg _ (by simpa using h18),
                    List.find?_cons_of_neg _ (by simpa using h15),
                    List.find?_cons_of_neg _ (by simpa using h12),
                    List.find?_cons_of_neg _ (by simpa using h9),
                    List.find?_cons_of_neg _ (by simpa using h6),
                    List.find?_cons_of_pos _ (by simpa using h3)]
              · intro v hv
                rw [hU] at hv
                fin_cases hv
                · exact fun hq => absurd hq h18
                · exact fun hq => absurd hq h15
                · exact fun hq => absurd hq h12
                · exact fun hq => absurd hq h9
                · exact fun hq => absurd hq h6
                · exact fun _ => le_refl _

/-- Witness for C1 at the value 1500 in the international system. -/
theorem pickUnit_largest_witness :
    ∃ u, pickUnit "international" 1500 = some u ∧ u ∈ unitsFor "international" ∧
      u.1 ≤ 1500 ∧ (∀ v ∈ unitsFor "international", v.1 ≤ 1500 → v.1 ≤ u.1) ∧
      ∀ f : NumberFormat, f.system = "international" →
        pickUnit f.system 1500 = pickUnit "international" 1500 :=
  pickUnit_largest "international" 1500 (by norm_num)

/-- C7: the `precise` flag only affects the sub-1000 branch.  For a sanitized
value of at least 1000 the output does not depend on `precise` (two-run
noninterference); below 1000 with `precise` set, the value renders with
exactly two decimals and the locale decimal separator, e.g. "500.00" for
English and "500,00" for German. -/
theorem precise_noninterference :
    (∀ (n : Dec) (ft st : Option String) (p1 p2 : Option Bool),
      1000 ≤ (sanitize n).val → numify n ⟨ft, p1, st⟩ = numify n ⟨ft, p2, st⟩) ∧
    (∀ (d : Dec) (ft st : Option String), (sanitize d).val < 1000 →
      numify d ⟨ft, some true, st⟩ =
        String.mk (replaceFirstDot (getFormat (ft.getD "en")).decimal
          (toFixed2 (sanitize d).val))) ∧
    numify ⟨500, 0⟩ ⟨none, some true, none⟩ = "500.00" ∧
    numify ⟨500, 0⟩ ⟨some "de", some true, none⟩ = "500,00" := by
  refine ⟨?_, ?_, by with_unfolding_all decide, by with_unfolding_all decide⟩
  · intro n ft st p1 p2 h
    simp only [numify, numifyCore]
    rw [if_neg (not_lt.2 h), if_neg (not_lt.2 h)]
  · intro d ft st h
    simp only [numify, numifyCore]
    rw [if_pos h]
    rfl

/-- Witness for C7: at 5000 the `precise` flag does not change the output,
and 500 with `precise` renders with two decimals. -/
theorem precise_noninterference_witness :
    numify ⟨5000, 0⟩ ⟨none, some true, none⟩ = numify ⟨5000, 0⟩ ⟨none, some false, none⟩ ∧
    numify ⟨500, 0⟩ ⟨none, some true, none⟩ =
      String.mk (replaceFirstDot (getFormat ((none : Option String).getD "en")).decimal
        (toFixed2 (sanitize ⟨500, 0⟩).val)) :=
  ⟨precise_noninterference.1 ⟨5000, 0⟩ none none (some true) (some false)
      (by with_unfolding_all decide),
    precise_noninterference.2.1 ⟨500, 0⟩ none none (by with_unfolding_all decide)⟩

/-- C3 counterexample: the input -5 is strictly less than 1000, renders
plainly as "-5", yet `numify` returns "5" — the claim fails for negative
inputs. -/
theorem numify_neg_input_counterexample :
    Dec.val ⟨-5, 0⟩ < 1000 ∧ jsToString ⟨-5, 0⟩ = "-5" ∧ numify ⟨-5, 0⟩ {} = "5" :=
  ⟨by with_unfolding_all decide, by with_unfolding_all decide, by with_unfolding_all decide⟩

/-- C3 amended: for every input whose *sanitized* value is below 1000 (with
`precise` unset or false), `numify` returns the sanitized value rendered as a
plain string, with no suffix and no separators; for a nonnegative input this
plain rendering coincides with that of the input itself. -/
theorem numify_below_1000_plain (d : Dec) (ft st : Option String) (p : Option Bool)
    (hp : p.getD false = false) (h : (sanitize d).val < 1000) :
    numify d ⟨ft, p, st⟩ = jsToString (sanitize d) ∧
    (0 ≤ d.m → jsToString (sanitize d) = jsToString d) := by
  constructor
  · simp only [numify, numifyCore]
    rw [if_pos h, hp]
    rfl
  · intro hm
    obtain ⟨m, e⟩ := d
    rw [sanitize_eq]
    have h1 : 0 ≤ (canonAux m e).1 := canonAux_nonneg e m hm
    have h2 : (((canonAux m e).1.natAbs : Int)) = (canonAux m e).1 := by omega
    unfold jsToString jsChars
    rw [h2, canonAux_fix]

set_option maxRecDepth 4000 in
/-- Witness for the amended C3 at the input 500. -/
theorem numify_below_1000_plain_witness : numify ⟨500, 0⟩ ⟨none, none, none⟩ = "500" := by
  have h := numify_below_1000_plain ⟨500, 0⟩ none none none rfl (by with_unfolding_all decide)
  rw [h.1]
  with_unfolding_all decide

set_option maxRecDepth 4000 in
/-- C8 counterexample: at 1234 in the indian system the chosen unit is
`(1000, "K")`, `LONG_UNITS` has no entry for "K", and the long style renders
the literal word "undefined" instead of a long-form unit word. -/
theorem numify_indian_long_undefined :
    pickUnit "indian" (sanitize ⟨1234, 0⟩).val = some ((10 : ℚ) ^ 3, "K") ∧
    LONG_UNITS.lookup "K" = none ∧
    numify ⟨1234, 0⟩ ⟨some "in", none, some "long"⟩ = "1.23 undefined" :=
  ⟨by with_unfolding_all decide, by decide, by with_unfolding_all decide⟩

/-- C8 amended: for a sanitized value of at least 1000 with the unit `u`
chosen, long style appends a single space and the `LONG_UNITS` entry for the
short suffix of the unit when one exists (the indian "K" has none and yields the
literal "undefined"); any other style value appends the short suffix directly
with no space; `numify 1234 {style := "long"}` is "1.23 thousand". -/
theorem numify_long_suffix (d : Dec) (ft : Option String) (p : Option Bool) (u : ℚ × String)
    (h : 1000 ≤ (sanitize d).val)
    (hu : pickUnit (getFormat (ft.getD "en")).system (sanitize d).val = some u) :
    (numify d ⟨ft, p, some "long"⟩ =
      renderScaled (getFormat (ft.getD "en")).decimal ((sanitize d).val / u.1) ++
        (" " ++ ((LONG_UNITS.lookup u.2).getD "undefined"))) ∧
    (∀ st : Option String, st.getD "short" ≠ "long" →
      numify d ⟨ft, p, st⟩ =
        renderScaled (getFormat (ft.getD "en")).decimal ((sanitize d).val / u.1) ++ u.2) ∧
    numify ⟨1234, 0⟩ ⟨none, none, some "long"⟩ = "1.23 thousand" := by
  refine ⟨?_, ?_, by with_unfolding_all decide⟩
  · simp only [numify, numifyCore]
    rw [if_neg (not_lt.2 h), hu]
    rfl
  · intro st hst
    simp only [numify, numifyCore]
    rw [if_neg (not_lt.2 h), hu]
    simp only [numifySuffix, beq_eq_false_iff_ne.mpr hst, Bool.false_eq_true, if_false]

set_option maxRecDepth 4000 in
/-- Witness for the amended C8 at 5000 with the international unit "k". -/
theorem numify_long_suffix_witness : numify ⟨5000, 0⟩ ⟨none, none, some "long"⟩ = "5 thousand" := by
  have h := numify_long_suffix ⟨5000, 0⟩ none none ((10 : ℚ) ^ 3, "k")
    (by with_unfolding_all decide) (by with_unfolding_all decide)
  rw [h.1]
  with_unfolding_all decide

/-! ### The trailing-zero trim rule -/

lemma trim_last_nonzero {A : List Char} {c1 c2 : Char} (h : (c2 == '0') = false) :
    trimTrailingZeros (A ++ ['.', c1, c2]) = A ++ ['.', c1, c2] := by
  have hr : (A ++ ['.', c1, c2]).reverse = c2 :: c1 :: '.' :: A.reverse := by simp
  simp only [trimTrailingZeros, hr, List.takeWhile_cons, h]
  simp

lemma trim_mid_nonzero {A : List Char} {c1 : Char} (h1 : (c1 == '0') = false)
    (hdot : c1 ≠ '.') (hdig : c1.isDigit = true) :
    trimTrailingZeros (A ++ ['.', c1, '0']) = A ++ ['.', c1] := by
  have hr : (A ++ ['.', c1, '0']).reverse = '0' :: c1 :: '.' :: A.reverse := by simp
  have hne : c1 ≠ '0' := by simpa using h1
  have ht : ('0' :: c1 :: '.' :: A.reverse).takeWhile (fun c => c == '0') = ['0'] := by
    simp [List.takeWhile_cons, h1]
  have hw : (List.dropWhile Char.isDigit ('.' :: A.reverse)).headD ' ' = '.' := by
    simp [List.dropWhile_cons]
  simp only [trimTrailingZeros, hr, ht, List.length_singleton]
  rw [if_neg (by omega : ¬(1 : Nat) = 0)]
  show (match c1 :: '.' :: A.reverse with
    | [] => A ++ ['.', c1, '0']
    | '.' :: xs => xs.reverse
    | x :: xs =>
      if x.isDigit = true ∧ x ≠ '0' ∧ (List.dropWhile Char.isDigit xs).headD ' ' = '.' then
        (x :: xs).reverse
      else A ++ ['.', c1, '0']) = A ++ ['.', c1]
  split
  · rename_i heq
    simp at heq
  · rename_i xs heq
    injection heq with hx hxs
    exact absurd hx hdot
  · rename_i x xs hne2 heq
    injection heq with hx hxs
    subst hx
    subst hxs
    rw [if_pos ⟨hdig, hne, hw⟩]
    simp

lemma trim_both_zero {A : List Char} :
    trimTrailingZeros (A ++ ['.', '0', '0']) = A := by
  have hr : (A ++ ['.', '0', '0']).reverse = '0' :: '0' :: '.' :: A.reverse := by simp
  have ht : ('0' :: '0' :: '.' :: A.reverse).takeWhile (fun c => c == '0') = ['0', '0'] := by
    simp [List.takeWhile_cons, show (('.' == '0') = false) from rfl]
  simp only [trimTrailingZeros, hr, ht, List.length_cons, List.length_nil]
  rw [if_neg (by omega : ¬(0 : Nat) + 1 + 1 = 0)]
  show (match '.' :: A.reverse with
    | [] => A ++ ['.', '0', '0']
    | '.' :: xs => xs.reverse
    | x :: xs =>
      if x.isDigit = true ∧ x ≠ '0' ∧ (List.dropWhile Char.isDigit xs).headD ' ' = '.' then
        (x :: xs).reverse
      else A ++ ['.', '0', '0']) = A
  split
  · rename_i heq
    simp at heq
  · rename_i xs heq
    injection heq with hx hxs
    subst hxs
    simp
  · rename_i x xs hne2 heq
    injection heq with hx hxs
    exact absurd hx.symm hne2

/-- The trim regex of the implementation applied to the two-decimal rendering
agrees with the case rule of the spec. -/
lemma trim_toFixed2 (q : ℚ) : trimTrailingZeros (toFixed2 q) = specTrim2 q := by
  unfold toFixed2 specTrim2
  set n := round2 q with hn
  by_cases h2 : n % 10 = 0
  · by_cases h1 : n / 10 % 10 = 0
    · have h100 : n % 100 = 0 := by omega
      rw [if_pos h100]
      have hc1 : digitChar (n / 10 % 10) = '0' := by rw [h1]; rfl
      have hc2 : digitChar (n % 10) = '0' := by rw [h2]; rfl
      rw [hc1, hc2]
      exact trim_both_zero
    · have h100 : ¬n % 100 = 0 := by omega
      rw [if_neg h100, if_pos h2]
      have hc2 : digitChar (n % 10) = '0' := by rw [h2]; rfl
      rw [hc2]
      have hd1 : n / 10 % 10 < 10 := Nat.mod_lt _ (by omega)
      refine trim_mid_nonzero ?_ ?_ (digitChar_isDigit hd1)
      · exact beq_eq_false_iff_ne.mpr (fun hcc => h1 ((digitChar_eq_zero_iff hd1).1 hcc))
      · exact isDigit_ne (digitChar_isDigit hd1) (by decide)
  · have h100 : ¬n % 100 = 0 := by omega
    rw [if_neg h100, if_neg h2]
    have hd2 : n % 10 < 10 := Nat.mod_lt _ (by omega)
    exact trim_last_nonzero
      (beq_eq_false_iff_ne.mpr (fun hcc => h2 ((digitChar_eq_zero_iff hd2).1 hcc)))

/-- C2: for every sanitized value of at least 1000 with chosen unit `u`,
`numify` renders `value / u.threshold` rounded half-up at the second decimal
and trimmed exactly by the spec rule — a trailing ".00" is dropped entirely
and a trailing zero after a nonzero decimal digit is dropped — followed by the
suffix; in particular `numify 1200 {}` is "1.2k" and `numify 2000 {}` is
"2k". -/
theorem numify_scaled_rendering (d : Dec) (ft st : Option String) (p : Option Bool)
    (u : ℚ × String) (h : 1000 ≤ (sanitize d).val)
    (hu : pickUnit (getFormat (ft.getD "en")).system (sanitize d).val = some u) :
    (numify d ⟨ft, p, st⟩ =
      String.mk (replaceFirstDot (getFormat (ft.getD "en")).decimal
        (specTrim2 ((sanitize d).val / u.1))) ++ numifySuffix (st.getD "short") u.2) ∧
    numify ⟨1200, 0⟩ {} = "1.2k" ∧ numify ⟨2000, 0⟩ {} = "2k" := by
  refine ⟨?_, by with_unfolding_all decide, by with_unfolding_all decide⟩
  simp only [numify, numifyCore]
  rw [if_neg (not_lt.2 h), hu]
  show String.mk (replaceFirstDot (getFormat (ft.getD "en")).decimal
      (trimTrailingZeros (toFixed2 ((sanitize d).val / u.1)))) ++
    numifySuffix (st.getD "short") u.2 = _
  rw [trim_toFixed2]

set_option maxRecDepth 4000 in
/-- Witness for C2 at the value 1500 with the international unit "k". -/
theorem numify_scaled_rendering_witness : numify ⟨1500, 0⟩ ⟨none, none, none⟩ = "1.5k" := by
  have h := numify_scaled_rendering ⟨1500, 0⟩ none none none ((10 : ℚ) ^ 3, "k")
    (by with_unfolding_all decide) (by with_unfolding_all decide)
  rw [h.1]
  with_unfolding_all decide

/-! ### Grouping: the scanned regex equals the positional spec rule -/

lemma flatten_group_aux (sep : Char) (ds : List Char) :
    (List.map (fun i => (if (ds.length - i) % 3 = 0 then [sep] else []) ++ [ds.getD i '0'])
        (List.range ds.length)).flatten =
      (if ds.length % 3 = 0 ∧ ds ≠ [] then [sep] else []) ++ specGroup sep ds := by
  cases ds with
  | nil => simp [specGroup]
  | cons c cs =>
    unfold specGroup
    rw [List.length_cons, List.range_succ_eq_map]
    simp only [List.map_cons, List.flatten_cons, List.map_map]
    have htail : List.map ((fun i =>
          (if (cs.length + 1 - i) % 3 = 0 then [sep] else []) ++ [(c :: cs).getD i '0'])
            ∘ Nat.succ) (List.range cs.length) =
        List.map ((fun i =>
          (if i ≠ 0 ∧ (cs.length + 1 - i) % 3 = 0 then [sep] else []) ++ [(c :: cs).getD i '0'])
            ∘ Nat.succ) (List.range cs.length) := by
      refine List.map_congr_left (fun i _ => ?_)
      simp
    rw [htail]
    simp [List.append_assoc]

lemma specGroup_cons (sep c : Char) (cs : List Char) :
    specGroup sep (c :: cs) =
      c :: (if cs.length % 3 = 0 ∧ cs ≠ [] then sep :: specGroup sep cs else specGroup sep cs) := by
  conv_lhs => unfold specGroup
  rw [List.length_cons, List.range_succ_eq_map]
  simp only [List.map_cons, List.flatten_cons, List.map_map]
  have hhead : (if (0 : Nat) ≠ 0 ∧ (cs.length + 1 - 0) % 3 = 0 then [sep] else []) ++
      [(c :: cs).getD 0 '0'] = [c] := by simp
  rw [hhead]
  have htail : List.map ((fun i =>
        (if i ≠ 0 ∧ (cs.length + 1 - i) % 3 = 0 then [sep] else []) ++ [(c :: cs).getD i '0'])
          ∘ Nat.succ) (List.range cs.length) =
      List.map (fun i => (if (cs.length - i) % 3 = 0 then [sep] else []) ++ [cs.getD i '0'])
        (List.range cs.length) := by
    refine List.map_congr_left (fun i _ => ?_)
    simp only [Function.comp_apply, List.getD_cons_succ]
    congr 2
    simp only [Nat.succ_ne_zero, ne_eq, not_false_eq_true, true_and]
    congr 1
    omega
  rw [htail, flatten_group_aux]
  split
  · simp
  · simp

/-- C5 equivalence core: the left-to-right regex scan equals the positional
"every third-digit boundary from the right" rule. -/
lemma groupThousands_eq_specGroup (sep : Char) (ds : List Char) :
    groupThousands sep ds = specGroup sep ds := by
  induction ds with
  | nil => rfl
  | cons c cs ih =>
    rw [specGroup_cons]
    show (if cs.length % 3 = 0 ∧ cs ≠ [] then c :: sep :: groupThousands sep cs
      else c :: groupThousands sep cs) = _
    split <;> simp [ih]

lemma filter_ne_groupThousands (sep : Char) (ds : List Char) (h : ∀ c ∈ ds, c ≠ sep) :
    (groupThousands sep ds).filter (fun x => x != sep) = ds := by
  induction ds with
  | nil => rfl
  | cons c cs ih =>
    have hc : (c != sep) = true := bne_iff_ne.mpr (h c (List.mem_cons_self c cs))
    have ihh := ih (fun x hx => h x (List.mem_cons_of_mem c hx))
    show (groupThousands sep (c :: cs)).filter (fun x => x != sep) = c :: cs
    unfold groupThousands
    split
    · simp only [List.filter_cons, hc, if_true, bne_self_eq_false, Bool.false_eq_true,
        if_false, ihh]
    · simp only [List.filter_cons, hc, if_true, ihh]

/-! ### Configuration facts -/

lemma lookup_mem_snd : ∀ {l : List (String × NumberFormat)} {k : String} {v : NumberFormat},
    l.lookup k = some v → v ∈ l.map Prod.snd := by
  intro l
  induction l with
  | nil => intro k v h; simp [List.lookup] at h
  | cons p t ih =>
    intro k v h
    obtain ⟨a, b⟩ := p
    simp only [List.lookup] at h
    split at h
    · injection h with h
      simp [h]
    · simp only [List.map_cons, List.mem_cons]
      exact Or.inr (ih h)

lemma getFormat_mem (s : String) : getFormat s ∈ allConfigs := by
  unfold getFormat
  split
  · decide
  · split
    · rename_i h
      rcases h with h | h <;> subst h <;> decide
    · rcases hl : FORMAT_LOCALES.lookup s with _ | v
      · decide
      · have hv := lookup_mem_snd hl
        simp only [FORMAT_LOCALES, List.map_cons, List.map_nil] at hv
        simp only [Option.getD_some]
        fin_cases hv <;> decide

lemma getFormat_sep_facts (s : String) :
    (getFormat s).thousand ≠ '-' ∧ (getFormat s).thousand.isDigit = false ∧
    (getFormat s).decimal ≠ '-' ∧ (getFormat s).decimal.isDigit = false ∧
    (getFormat s).decimal ≠ (getFormat s).thousand := by
  have h := getFormat_mem s
  simp only [allConfigs, List.mem_cons, List.not_mem_nil, or_false] at h
  rcases h with h | h | h | h | h <;> rw [h] <;> exact ⟨by decide, by decide, by decide,
    by decide, by decide⟩

/-! ### The shape of a rendered number and the action of formatNumber on it -/

lemma contains_dot_false {l : List Char} (h : ∀ c ∈ l, c ≠ '.') : l.contains '.' = false := by
  induction l with
  | nil => rfl
  | cons a as ih =>
    have ha : a ≠ '.' := h a (List.mem_cons_self a as)
    simp only [List.contains_cons, beq_eq_false_iff_ne.mpr (Ne.symm ha), Bool.false_or]
    exact ih (fun c hc => h c (List.mem_cons_of_mem a hc))

lemma contains_of_mem {l : List Char} {a : Char} (h : a ∈ l) : l.contains a = true := by
  induction l with
  | nil => cases h
  | cons b bs ih =>
    rcases List.mem_cons.1 h with h | h
    · simp [List.contains_cons, h]
    · rw [List.contains_cons, ih h]
      simp

lemma jsChars_shape (m : Int) (e : Nat) :
    ∃ sgn I F, (sgn = [] ∨ sgn = ['-']) ∧ (∀ c ∈ I, c.isDigit = true) ∧ I ≠ [] ∧
      (∀ c ∈ F, c.isDigit = true) ∧
      jsChars m e = sgn ++ I ++ (if F = [] then [] else '.' :: F) := by
  unfold jsChars renderChars renderBody
  by_cases he : (canonAux m e).2 = 0
  · refine ⟨if (canonAux m e).1 < 0 then ['-'] else [], natDigits (canonAux m e).1.natAbs, [],
      ?_, fun c hc => mem_natDigits_isDigit hc, natDigits_ne_nil _, by simp, ?_⟩
    · split
      · exact Or.inr rfl
      · exact Or.inl rfl
    · rw [if_pos he]
      simp
  · refine ⟨if (canonAux m e).1 < 0 then ['-'] else [],
      natDigits ((canonAux m e).1.natAbs / 10 ^ (canonAux m e).2),
      padLeftZeros (canonAux m e).2 (natDigits ((canonAux m e).1.natAbs % 10 ^ (canonAux m e).2)),
      ?_, fun c hc => mem_natDigits_isDigit hc, natDigits_ne_nil _,
      mem_padLeftZeros_isDigit (fun _ hx => mem_natDigits_isDigit hx), ?_⟩
    · split
      · exact Or.inr rfl
      · exact Or.inl rfl
    · rw [if_neg he]
      have hlen := padLeftZeros_length (l := natDigits ((canonAux m e).1.natAbs % 10 ^ (canonAux m e).2))
        (natDigits_length_le _ (canonAux m e).2 (by omega) (Nat.mod_lt _ (by positivity)))
      have hF : padLeftZeros (canonAux m e).2
          (natDigits ((canonAux m e).1.natAbs % 10 ^ (canonAux m e).2)) ≠ [] := by
        intro hnil
        rw [hnil] at hlen
        simp at hlen
        omega
      rw [if_neg hF]
      simp

lemma formatNumber_eq (num : Dec) (o : FormatNumberOptions) (sgn I F : List Char)
    (hs : sgn = [] ∨ sgn = ['-']) (hI : ∀ c ∈ I, c.isDigit = true) (hIne : I ≠ [])
    (hF : ∀ c ∈ F, c.isDigit = true)
    (hj : jsChars num.m num.e = sgn ++ I ++ (if F = [] then [] else '.' :: F)) :
    formatNumber num o = String.mk (sgn ++
      groupThousands (getFormat (o.formatType.getD "en")).thousand I ++
      (if F = [] then []
       else (getFormat (o.formatType.getD "en")).decimal :: F)) := by
  have hInd : ∀ c ∈ I, (c != '.') = true := fun c hc => isDigit_bne_dot (hI c hc)
  by_cases hFe : F = []
  · rw [if_pos hFe] at hj ⊢
    rw [List.append_nil] at hj
    have hnd : ∀ c ∈ sgn ++ I, (c != '.') = true := by
      intro c hc
      rcases List.mem_append.1 hc with h | h
      · rcases hs with hsgn | hsgn <;> rw [hsgn] at h
        · cases h
        · simp only [List.mem_singleton] at h
          subst h
          decide
      · exact hInd c h
    have hcont : (sgn ++ I).contains '.' = false :=
      contains_dot_false (fun c hc => by simpa using hnd c hc)
    have htake : (sgn ++ I).takeWhile (fun c => c != '.') = sgn ++ I := takeWhile_all hnd
    have hdrop : (sgn ++ I).dropWhile (fun c => c != '.') = [] := dropWhile_all hnd
    simp only [formatNumber]
    rw [hj, hcont, htake, hdrop]
    rcases hs with hsgn | hsgn <;> subst hsgn
    · have hhead : ((([] : List Char) ++ I).headD '0' == '-') = false := by
        rw [List.nil_append]
        cases hl : I with
        | nil => exact absurd hl hIne
        | cons c cs =>
          simp only [List.headD_cons, beq_eq_false_iff_ne, ne_eq]
          exact isDigit_ne (hI c (by rw [hl]; exact List.mem_cons_self c cs)) (by decide)
      rw [hhead]
      simp
    · rw [show ((['-'] ++ I).headD '0' == '-') = true from rfl]
      simp
  · rw [if_neg hFe] at hj ⊢
    have hnd : ∀ c ∈ sgn ++ I, (c != '.') = true := by
      intro c hc
      rcases List.mem_append.1 hc with h | h
      · rcases hs with hsgn | hsgn <;> rw [hsgn] at h
        · cases h
        · simp only [List.mem_singleton] at h
          subst h
          decide
      · exact hInd c h
    have hcont : ((sgn ++ I) ++ '.' :: F).contains '.' = true :=
      contains_of_mem (by simp)
    have htake := takeWhile_ne_dot_append (B := F) hnd
    have hdrop := dropWhile_ne_dot_append (B := F) hnd
    simp only [formatNumber]
    rw [hj, hcont, htake, hdrop]
    rcases hs with hsgn | hsgn <;> subst hsgn
    · have hhead : ((([] : List Char) ++ I).headD '0' == '-') = false := by
        rw [List.nil_append]
        cases hl : I with
        | nil => exact absurd hl hIne
        | cons c cs =>
          simp only [List.headD_cons, beq_eq_false_iff_ne, ne_eq]
          exact isDigit_ne (hI c (by rw [hl]; exact List.mem_cons_self c cs)) (by decide)
      rw [hhead]
      simp
    · rw [show ((['-'] ++ I).headD '0' == '-') = true from rfl]
      simp

lemma filter_bne_of_ne {l : List Char} {a : Char} (h : ∀ c ∈ l, c ≠ a) :
    l.filter (fun x => x != a) = l :=
  List.filter_eq_self.mpr (fun c hc => bne_iff_ne.mpr (h c hc))

lemma map_replace_of_ne {l : List Char} {a b : Char} (h : ∀ c ∈ l, c ≠ a) :
    l.map (fun x => if x = a then b else x) = l := by
  induction l with
  | nil => rfl
  | cons c cs ih =>
    rw [List.map_cons, if_neg (h c (List.mem_cons_self c cs)),
      ih (fun x hx => h x (List.mem_cons_of_mem c hx))]

/-- Stripping the thousand separators and putting the dot back in place of the
locale decimal separator recovers the plain rendering: grouping is purely
cosmetic and never alters digits. -/
lemma unformat_formatNumber (d : Dec) (ft : Option String) :
    replaceChar (getFormat (ft.getD "en")).decimal '.'
      (stripChar (getFormat (ft.getD "en")).thousand (formatNumber d ⟨ft⟩)) = jsToString d := by
  obtain ⟨hth_dash, hth_dig, hdc_dash, hdc_dig, hdc_th⟩ := getFormat_sep_facts (ft.getD "en")
  obtain ⟨sgn, I, F, hs, hI, hIne, hF, hj⟩ := jsChars_shape d.m d.e
  rw [formatNumber_eq d ⟨ft⟩ sgn I F hs hI hIne hF hj]
  show replaceChar (getFormat (ft.getD "en")).decimal '.' (String.mk
    ((sgn ++ groupThousands (getFormat (ft.getD "en")).thousand I ++
      (if F = [] then []
       else (getFormat (ft.getD "en")).decimal :: F)).filter
      (fun x => x != (getFormat (ft.getD "en")).thousand))) = jsToString d
  rw [List.filter_append, List.filter_append]
  have f1 : sgn.filter (fun x => x != (getFormat (ft.getD "en")).thousand) = sgn := by
    refine filter_bne_of_ne (fun c hc => ?_)
    rcases hs with hsgn | hsgn <;> subst hsgn
    · cases hc
    · simp only [List.mem_singleton] at hc
      subst hc
      exact Ne.symm hth_dash
  have f2 := filter_ne_groupThousands (getFormat (ft.getD "en")).thousand I
    (fun c hc => isDigit_ne (hI c hc) hth_dig)
  have f3 : (if F = [] then ([] : List Char)
      else (getFormat (ft.getD "en")).decimal :: F).filter
        (fun x => x != (getFormat (ft.getD "en")).thousand) =
      (if F = [] then ([] : List Char) else (getFormat (ft.getD "en")).decimal :: F) := by
    split
    · rfl
    · refine filter_bne_of_ne (fun c hc => ?_)
      rcases List.mem_cons.1 hc with h | h
      · subst h
        exact hdc_th
      · exact isDigit_ne (hF c h) hth_dig
  rw [f1, f2, f3]
  show String.mk ((sgn ++ I ++
      (if F = [] then [] else (getFormat (ft.getD "en")).decimal :: F)).map
      (fun x => if x = (getFormat (ft.getD "en")).decimal then '.' else x)) = jsToString d
  rw [List.map_append, List.map_append]
  have g1 : sgn.map (fun x => if x = (getFormat (ft.getD "en")).decimal then '.' else x) = sgn := by
    refine map_replace_of_ne (fun c hc => ?_)
    rcases hs with hsgn | hsgn <;> subst hsgn
    · cases hc
    · simp only [List.mem_singleton] at hc
      subst hc
      exact Ne.symm hdc_dash
  have g2 : I.map (fun x => if x = (getFormat (ft.getD "en")).decimal then '.' else x) = I :=
    map_replace_of_ne (fun c hc => isDigit_ne (hI c hc) hdc_dig)
  have g3 : (if F = [] then ([] : List Char)
      else (getFormat (ft.getD "en")).decimal :: F).map
        (fun x => if x = (getFormat (ft.getD "en")).decimal then '.' else x) =
      (if F = [] then ([] : List Char) else '.' :: F) := by
    split
    · rfl
    · rw [List.map_cons, if_pos rfl, map_replace_of_ne (fun c hc => isDigit_ne (hF c hc) hdc_dig)]
  rw [g1, g2, g3, ← hj]
  rfl

/-- C5: `formatNumber` groups with the positional rule — the scanned grouping
regex equals inserting the separator at every third-digit boundary counting
from the right, never before the first digit (first conjunct); it never
rounds or alters the digits — removing the thousand separators and undoing
the decimal-separator substitution recovers the plain rendering (second
conjunct); and `formatNumber 1234567.89 {formatType := "de"}` is
"1.234.567,89" (third conjunct). -/
theorem formatNumber_grouping :
    (∀ (sep : Char) (ds : List Char), groupThousands sep ds = specGroup sep ds) ∧
    (∀ (d : Dec) (ft : Option String),
      replaceChar (getFormat (ft.getD "en")).decimal '.'
        (stripChar (getFormat (ft.getD "en")).thousand (formatNumber d ⟨ft⟩)) = jsToString d) ∧
    formatNumber ⟨123456789, 2⟩ ⟨some "de"⟩ = "1.234.567,89" :=
  ⟨groupThousands_eq_specGroup, unformat_formatNumber, by with_unfolding_all decide⟩

/-! ### Idempotence of grouping -/

lemma parseChars_natDigits (k : Nat) : parseChars (natDigits k) = ⟨(k : Int), 0⟩ := by
  have h := parseChars_renderBody k 0
  simpa [renderBody] using h

lemma parseChars_sign_digits (n : Int) :
    parseChars ((if n < 0 then ['-'] else []) ++ natDigits n.natAbs) = ⟨n, 0⟩ := by
  split
  · rename_i hneg
    show (⟨-(digitsToNat ((natDigits n.natAbs).takeWhile (fun c => c != '.') ++
        (((natDigits n.natAbs).dropWhile (fun c => c != '.')).drop 1)) : Int),
        (((natDigits n.natAbs).dropWhile (fun c => c != '.')).drop 1).length⟩ : Dec) = ⟨n, 0⟩
    rw [takeWhile_all (fun c hc => isDigit_bne_dot (mem_natDigits_isDigit hc)),
        dropWhile_all (fun c hc => isDigit_bne_dot (mem_natDigits_isDigit hc))]
    simp only [List.drop_nil, List.append_nil, List.length_nil]
    rw [digitsToNat_natDigits]
    congr 1
    omega
  · rename_i hpos
    rw [List.nil_append, parseChars_natDigits]
    congr 1
    omega

/-- C9: grouping is idempotent — for an integer input, stripping the thousand
separators from the output of `formatNumber`, re-parsing, and formatting
again with the same options yields exactly the same string. -/
theorem formatNumber_idempotent (n : Int) (ft : Option String) :
    formatNumber (parseDec (stripChar (getFormat (ft.getD "en")).thousand
      (formatNumber ⟨n, 0⟩ ⟨ft⟩))) ⟨ft⟩ = formatNumber ⟨n, 0⟩ ⟨ft⟩ := by
  obtain ⟨hth_dash, hth_dig, _, _, _⟩ := getFormat_sep_facts (ft.getD "en")
  have hj : jsChars n 0 = (if n < 0 then ['-'] else []) ++ natDigits n.natAbs ++
      (if ([] : List Char) = [] then [] else '.' :: ([] : List Char)) := by
    simp [jsChars, canonAux, renderChars, renderBody]
  have hsgn : (if n < 0 then ['-'] else ([] : List Char)) = [] ∨
      (if n < 0 then ['-'] else ([] : List Char)) = ['-'] := by
    split
    · exact Or.inr rfl
    · exact Or.inl rfl
  have hfmt := formatNumber_eq ⟨n, 0⟩ ⟨ft⟩ (if n < 0 then ['-'] else []) (natDigits n.natAbs) []
    hsgn (fun c hc => mem_natDigits_isDigit hc) (natDigits_ne_nil _) (by simp) hj
  rw [hfmt]
  show formatNumber (parseChars (((if n < 0 then ['-'] else []) ++
      groupThousands (getFormat (ft.getD "en")).thousand (natDigits n.natAbs) ++
      (if ([] : List Char) = [] then [] else (getFormat (ft.getD "en")).decimal ::
        ([] : List Char))).filter
      (fun x => x != (getFormat (ft.getD "en")).thousand))) ⟨ft⟩ = _
  rw [List.filter_append, List.filter_append]
  have f1 : (if n < 0 then ['-'] else ([] : List Char)).filter
      (fun x => x != (getFormat (ft.getD "en")).thousand) =
      (if n < 0 then ['-'] else ([] : List Char)) := by
    refine filter_bne_of_ne (fun c hc => ?_)
    rcases hsgn with h | h <;> rw [h] at hc
    · cases hc
    · simp only [List.mem_singleton] at hc
      subst hc
      exact Ne.symm hth_dash
  have f2 := filter_ne_groupThousands (getFormat (ft.getD "en")).thousand (natDigits n.natAbs)
    (fun c hc => isDigit_ne (mem_natDigits_isDigit hc) hth_dig)
  rw [f1, f2]
  have f3 : List.filter (fun x => x != (getFormat (ft.getD "en")).thousand)
      (if ([] : List Char) = ([] : List Char) then ([] : List Char)
       else (getFormat (ft.getD "en")).decimal :: ([] : List Char)) = [] := rfl
  rw [f3, List.append_nil, parseChars_sign_digits, hfmt]

/-! ### The legacy implementation -/

lemma replaceFirstDot_dot : ∀ l : List Char, replaceFirstDot '.' l = l := by
  intro l
  induction l with
  | nil => rfl
  | cons x xs ih =>
    unfold replaceFirstDot
    split
    · rename_i hx
      rw [hx]
    · rw [ih]

/-- The legacy descending loop lands on the same unit as the current
descending `find` over the international ladder. -/
lemma legacy_unit_eq (q : ℚ) (h : 1000 ≤ q) :
    pickUnit "international" q = some (si.getD (legacyLoop q 5) ((0 : ℚ), "")) := by
  have h3 : ((10 : ℚ) ^ 3) ≤ q := by norm_num; linarith
  have hUn : unitsFor "international" = internationalUnits := rfl
  have e5 : (si.getD 5 ((0 : ℚ), "")).1 = (10 : ℚ) ^ 18 := rfl
  have e4 : (si.getD 4 ((0 : ℚ), "")).1 = (10 : ℚ) ^ 15 := rfl
  have e3 : (si.getD 3 ((0 : ℚ), "")).1 = (10 : ℚ) ^ 12 := rfl
  have e2 : (si.getD 2 ((0 : ℚ), "")).1 = (10 : ℚ) ^ 9 := rfl
  have e1 : (si.getD 1 ((0 : ℚ), "")).1 = (10 : ℚ) ^ 6 := rfl
  by_cases h18 : ((10 : ℚ) ^ 18) ≤ q
  · have hL : legacyLoop q 5 = 5 := by
      show (if (si.getD 5 ((0 : ℚ), "")).1 ≤ q then 5 else legacyLoop q 4) = 5
      simp only [e5]
      rw [if_pos h18]
    rw [hL, show si.getD 5 ((0 : ℚ), "") = ((10 : ℚ) ^ 18, "E") from rfl]
    simp only [pickUnit, hUn, internationalUnits]
    rw [List.find?_cons_of_pos _ (by simpa using h18)]
  · by_cases h15 : ((10 : ℚ) ^ 15) ≤ q
    · have hL : legacyLoop q 5 = 4 := by
        show (if (si.getD 5 ((0 : ℚ), "")).1 ≤ q then 5 else legacyLoop q 4) = 4
        simp only [e5]
        rw [if_neg h18]
        show (if (si.getD 4 ((0 : ℚ), "")).1 ≤ q then 4 else legacyLoop q 3) = 4
        simp only [e4]
        rw [if_pos h15]
      rw [hL, show si.getD 4 ((0 : ℚ), "") = ((10 : ℚ) ^ 15, "P") from rfl]
      simp only [pickUnit, hUn, internationalUnits]
      rw [List.find?_cons_of_neg _ (by simpa using h18),
          List.find?_cons_of_pos _ (by simpa using h15)]
    · by_cases h12 : ((10 : ℚ) ^ 12) ≤ q
      · have hL : legacyLoop q 5 = 3 := by
          show (if (si.getD 5 ((0 : ℚ), "")).1 ≤ q then 5 else legacyLoop q 4) = 3
          simp only [e5]
          rw [if_neg h18]
          show (if (si.getD 4 ((0 : ℚ), "")).1 ≤ q then 4 else legacyLoop q 3) = 3
          simp only [e4]
          rw [if_neg h15]
          show (if (si.getD 3 ((0 : ℚ), "")).1 ≤ q then 3 else legacyLoop q 2) = 3
          simp only [e3]
          rw [if_pos h12]
        rw [hL, show si.getD 3 ((0 : ℚ), "") = ((10 : ℚ) ^ 12, "T") from rfl]
        simp only [pickUnit, hUn, internationalUnits]
        rw [List.find?_cons_of_neg _ (by simpa using h18),
            List.find?_cons_of_neg _ (by simpa using h15),
            List.find?_cons_of_pos _ (by simpa using h12)]
      · by_cases h9 : ((10 : ℚ) ^ 9) ≤ q
        · have hL : legacyLoop q 5 = 2 := by
            show (if (si.getD 5 ((0 : ℚ), "")).1 ≤ q then 5 else legacyLoop q 4) = 2
            simp only [e5]
            rw [if_neg h18]
            show (if (si.getD 4 ((0 : ℚ), "")).1 ≤ q then 4 else legacyLoop q 3) = 2
            simp only [e4]
            rw [if_neg h15]
            show (if (si.getD 3 ((0 : ℚ), "")).1 ≤ q then 3 else legacyLoop q 2) = 2
            simp only [e3]
            rw [if_neg h12]
            show (if (si.getD 2 ((0 : ℚ), "")).1 ≤ q then 2 else legacyLoop q 1) = 2
            simp only [e2]
            rw [if_pos h9]
          rw [hL, show si.getD 2 ((0 : ℚ), "") = ((10 : ℚ) ^ 9, "B") from rfl]
          simp only [pickUnit, hUn, internationalUnits]
          rw [List.find?_cons_of_neg _ (by simpa using h18),
              List.find?_cons_of_neg _ (by simpa using h15),
              List.find?_cons_of_neg _ (by simpa using h12),
              List.find?_cons_of_pos _ (by simpa using h9)]
        · by_cases h6 : ((10 : ℚ) ^ 6) ≤ q
          · have hL : legacyLoop q 5 = 1 := by
              show (if (si.getD 5 ((0 : ℚ), "")).1 ≤ q then 5 else legacyLoop q 4) = 1
              simp only [e5]
              rw [if_neg h18]
              show (if (si.getD 4 ((0 : ℚ), "")).1 ≤ q then 4 else legacyLoop q 3) = 1
              simp only [e4]
              rw [if_neg h15]
              show (if (si.getD 3 ((0 : ℚ), "")).1 ≤ q then 3 else legacyLoop q 2) = 1
              simp only [e3]
              rw [if_neg h12]
              show (if (si.getD 2 ((0 : ℚ), "")).1 ≤ q then 2 else legacyLoop q 1) = 1
              simp only [e2]
              rw [if_neg h9]
              show (if (si.getD 1 ((0 : ℚ), "")).1 ≤ q then 1 else legacyLoop q 0) = 1
              simp only [e1]
              rw [if_pos h6]
            rw [hL, show si.getD 1 ((0 : ℚ), "") = ((10 : ℚ) ^ 6, "M") from rfl]
            simp only [pickUnit, hUn, internationalUnits]
            rw [List.find?_cons_of_neg _ (by simpa using h18),
                List.find?_cons_of_neg _ (by simpa using h15),
                List.find?_cons_of_neg _ (by simpa using h12),
                List.find?_cons_of_neg _ (by simpa using h9),
                List.find?_cons_of_pos _ (by simpa using h6)]
          · have hL : legacyLoop q 5 = 0 := by
              show (if (si.getD 5 ((0 : ℚ), "")).1 ≤ q then 5 else legacyLoop q 4) = 0
              simp only [e5]
              rw [if_neg h18]
              show (if (si.getD 4 ((0 : ℚ), "")).1 ≤ q then 4 else legacyLoop q 3) = 0
              simp only [e4]
              rw [if_neg h15]
              show (if (si.getD 3 ((0 : ℚ), "")).1 ≤ q then 3 else legacyLoop q 2) = 0
              simp only [e3]
              rw [if_neg h12]
              show (if (si.getD 2 ((0 : ℚ), "")).1 ≤ q then 2 else legacyLoop q 1) = 0
              simp only [e2]
              rw [if_neg h9]
              show (if (si.getD 1 ((0 : ℚ), "")).1 ≤ q then 1 else legacyLoop q 0) = 0
              simp only [e1]
              rw [if_neg h6]
              rfl
            rw [hL, show si.getD 0 ((0 : ℚ), "") = ((10 : ℚ) ^ 3, "k") from rfl]
            simp only [pickUnit, hUn, internationalUnits]
            rw [List.find?_cons_of_neg _ (by simpa using h18),
                List.find?_cons_of_neg _ (by simpa using h15),
                List.find?_cons_of_neg _ (by simpa using h12),
                List.find?_cons_of_neg _ (by simpa using h9),
                List.find?_cons_of_neg _ (by simpa using h6),
                List.find?_cons_of_pos _ (by simpa using h3)]

/-- C10: for every input whose sanitized value is at least 1000, the legacy
`numify` (src/src/index.ts) returns exactly the same string as the current
`numify` called with default options: same sanitization, same international
unit, same two-decimal rounding and trailing-zero trimming. -/
theorem legacy_refines_numify (d : Dec) (h : 1000 ≤ (sanitize d).val) :
    legacyNumify d = Sum.inr (numify d ⟨none, none, none⟩) := by
  simp only [legacyNumify, numify, numifyCore]
  rw [if_neg (not_lt.2 h), if_neg (not_lt.2 h)]
  have hsys : (getFormat ((none : Option String).getD "en")).system = "international" := rfl
  rw [hsys, legacy_unit_eq (sanitize d).val h]
  show Sum.inr (String.mk (trimTrailingZeros (toFixed2 ((sanitize d).val /
      (si.getD (legacyLoop (sanitize d).val 5) ((0 : ℚ), "")).1))) ++
      (si.getD (legacyLoop (sanitize d).val 5) ((0 : ℚ), "")).2) =
    Sum.inr (renderScaled (getFormat ((none : Option String).getD "en")).decimal
      ((sanitize d).val / (si.getD (legacyLoop (sanitize d).val 5) ((0 : ℚ), "")).1) ++
      numifySuffix ((none : Option String).getD "short")
        (si.getD (legacyLoop (sanitize d).val 5) ((0 : ℚ), "")).2)
  rw [show (getFormat ((none : Option String).getD "en")).decimal = '.' from rfl]
  unfold renderScaled
  rw [replaceFirstDot_dot]
  rfl

set_option maxRecDepth 4000 in
/-- Witness for C10 at the input 300000000. -/
theorem legacy_refines_numify_witness :
    legacyNumify ⟨300000000, 0⟩ = Sum.inr (numify ⟨300000000, 0⟩ ⟨none, none, none⟩) :=
  legacy_refines_numify ⟨300000000, 0⟩ (by with_unfolding_all decide)

end Numify
